import Mathlib

/-!
Shallow embedding of the scheduling core of `src/main.py` (a school
timetable generator built on a CP-SAT style solver), together with proofs
of the specification claims about it.

Conventions of the embedding:
* Python dicts that preserve insertion order are modelled as association
  lists `List (key × value)`; dict keys are unique in the real program.
* Python sets built incrementally are modelled as first-occurrence
  deduplicated lists (`dedupAux []`), which also records the insertion
  order of `dict`/`defaultdict` keys.
* Printed diagnostics are modelled as structured values carrying exactly
  the data interpolated into the printed message.
* A Python `KeyError` on a missing dict key is modelled by `Option`
  lookups; the defensive choice taken at each site is noted there.
-/

namespace JCM

/-- One student group from `config["groupes_eleves"]`: name and grade level. -/
structure GroupeInfo where
  nom : String
  niveau : String
deriving DecidableEq

/-- One teacher record from `config["professeurs"]`: subjects taught and
the availability constraints `jours_indisponibles` / `heures_indisponibles`. -/
structure ProfInfo where
  matieres_enseignees : List String
  jours_indisponibles : List String
  heures_indisponibles : List String
deriving DecidableEq

/-- One room record from `config["salles"]`: its type, capacity and equipment
(the latter two are informational only in the source). -/
structure SalleInfo where
  type : String
  capacite : Nat
  equipements : List String
deriving DecidableEq

/-- The configuration record consumed by `create_schedule_from_config`.
`matieres` maps a subject name to its `salle_requise` field; `curriculum`
maps a grade level directly to its `matieres_obligatoires` ordered mapping
(subject name to weekly occurrence count). -/
structure Config where
  groupes_eleves : List GroupeInfo
  salles : List (String × SalleInfo)
  professeurs : List (String × ProfInfo)
  matieres : List (String × String)
  curriculum : List (String × List (String × Nat))
  jours : List String
  heures : List String
deriving DecidableEq

/-- One course instance `(groupe, matiere, cours_id)` as produced by
`generate_cours_from_config`. -/
structure Cours where
  groupe : String
  matiere : String
  id : Nat
deriving DecidableEq

/-- One key of the `assignments` dict:
`(groupe, matiere, cours_id, prof, salle, jour, heure)`. Each such key is
backed by exactly one boolean decision variable. -/
structure Key where
  groupe : String
  matiere : String
  id : Nat
  prof : String
  salle : String
  jour : String
  heure : String
deriving DecidableEq

/-- One decoded schedule entry `(jour, heure, matiere, prof, salle)` as stored
in the `solution` dict. -/
structure Entry where
  jour : String
  heure : String
  matiere : String
  prof : String
  salle : String
deriving DecidableEq

/-- The decoded `solution`: a `defaultdict(list)` keyed by group name, in
insertion order. -/
abbrev Solution := List (String × List Entry)

/-- First-occurrence deduplication with an explicit `seen` accumulator.
`dedupAux [] l` lists the distinct elements of `l` in order of first
occurrence — the iteration order of a Python `dict`/`set` built by
successive insertions from `l`. -/
def dedupAux [DecidableEq α] (seen : List α) : List α → List α
  | [] => []
  | x :: xs => if x ∈ seen then dedupAux seen xs else x :: dedupAux (x :: seen) xs

/-- Number of occurrences of `x` in `l` (Python `list.count` /
`collections.Counter` entry). -/
def countEq [DecidableEq α] (l : List α) (x : α) : Nat :=
  (l.filter (fun y => y = x)).length

theorem mem_dedupAux [DecidableEq α] {seen : List α} {l : List α} {a : α} :
    a ∈ dedupAux seen l ↔ a ∈ l ∧ a ∉ seen := by
  induction l generalizing seen with
  | nil => simp [dedupAux]
  | cons x xs ih =>
    by_cases hx : x ∈ seen
    · simp only [dedupAux, if_pos hx, ih, List.mem_cons]
      constructor
      · rintro ⟨h1, h2⟩; exact ⟨Or.inr h1, h2⟩
      · rintro ⟨h1 | h1, h2⟩
        · exact absurd (h1 ▸ hx) h2
        · exact ⟨h1, h2⟩
    · simp only [dedupAux, if_neg hx, List.mem_cons, ih]
      constructor
      · rintro (rfl | ⟨h1, h2⟩)
        · exact ⟨Or.inl rfl, hx⟩
        · exact ⟨Or.inr h1, fun hs => h2 (Or.inr hs)⟩
      · rintro ⟨h1 | h1, h2⟩
        · exact Or.inl h1
        · by_cases hax : a = x
          · exact Or.inl hax
          · exact Or.inr ⟨h1, fun hs => hs.elim hax h2⟩

theorem nodup_dedupAux [DecidableEq α] (seen : List α) (l : List α) :
    (dedupAux seen l).Nodup := by
  induction l generalizing seen with
  | nil => simp [dedupAux]
  | cons x xs ih =>
    by_cases hx : x ∈ seen
    · simpa [dedupAux, if_pos hx] using ih seen
    · simp only [dedupAux, if_neg hx]
      refine (List.nodup_cons).mpr ⟨fun hmem => ?_, ih (x :: seen)⟩
      exact (mem_dedupAux.mp hmem).2 (List.mem_cons_self x seen)

theorem toFinset_dedupAux [DecidableEq α] (l : List α) :
    (dedupAux ([] : List α) l).toFinset = l.toFinset := by
  ext a
  simp [List.mem_toFinset, mem_dedupAux]

theorem length_dedupAux_eq_card [DecidableEq α] (l : List α) :
    (dedupAux ([] : List α) l).length = l.toFinset.card := by
  rw [← toFinset_dedupAux, List.toFinset_card_of_nodup (nodup_dedupAux [] l)]

/-!
## CurriculumExpander — `generate_cours_from_config` (src/main.py lines 23-42)

The Python code walks the group list; for a group whose `niveau` occurs in
`config["curriculum"]` it walks the `matieres_obligatoires` mapping and, for
each subject, appends `nb_cours` tuples `(groupe_nom, matiere, cours_id)`
while incrementing the global counter `cours_id`. The numbering pass is
factored below into `numberFrom` (attach consecutive ids starting at `k`).
-/

/-- Attach consecutive sequence ids, starting at `k`, to a list of
`(groupe, matiere)` pairs. -/
def numberFrom (k : Nat) : List (String × String) → List Cours
  | [] => []
  | p :: rest => ⟨p.1, p.2, k⟩ :: numberFrom (k + 1) rest

/-- The `(groupe, matiere)` pairs contributed by one group, in subject order
then occurrence order; a group whose grade level is absent from the
curriculum mapping contributes nothing (`if niveau in config["curriculum"]`). -/
def groupeCours (config : Config) (g : GroupeInfo) : List (String × String) :=
  match config.curriculum.lookup g.niveau with
  | none => []
  | some mats => mats.flatMap (fun mn => List.replicate mn.2 (g.nom, mn.1))

/-- The group-list loop of `generate_cours_from_config`, carrying the running
`cours_id` counter `k`. -/
def generate_go (config : Config) : List GroupeInfo → Nat → List Cours
  | [], _ => []
  | g :: gs, k =>
      numberFrom k (groupeCours config g) ++
        generate_go config gs (k + (groupeCours config g).length)

/-- `generate_cours_from_config`: the flat list of course instances with
sequence ids assigned from 0. -/
def generate_cours_from_config (config : Config) : List Cours :=
  generate_go config config.groupes_eleves 0

/-- The expansion order described by the specification: concatenate the
groups' contributions in config list order (each already in subject order
then occurrence order) and number them consecutively from 0. -/
def specCurriculumExpansion (config : Config) : List Cours :=
  numberFrom 0 (config.groupes_eleves.flatMap (groupeCours config))

theorem numberFrom_append (k : Nat) (l1 l2 : List (String × String)) :
    numberFrom k (l1 ++ l2) = numberFrom k l1 ++ numberFrom (k + l1.length) l2 := by
  induction l1 generalizing k with
  | nil => simp [numberFrom]
  | cons p rest ih =>
    simp only [List.cons_append, numberFrom, List.length_cons, List.append_eq]
    rw [ih (k + 1)]
    have h : k + 1 + rest.length = k + (rest.length + 1) := by omega
    rw [h]

theorem map_id_numberFrom (k : Nat) (l : List (String × String)) :
    (numberFrom k l).map Cours.id = List.range' k l.length := by
  induction l generalizing k with
  | nil => simp [numberFrom]
  | cons p rest ih => simp [numberFrom, ih (k + 1), List.range'_succ]

theorem generate_go_eq_numberFrom (config : Config) (gs : List GroupeInfo) (k : Nat) :
    generate_go config gs k = numberFrom k (gs.flatMap (groupeCours config)) := by
  induction gs generalizing k with
  | nil => simp [generate_go, numberFrom]
  | cons g rest ih =>
    simp [generate_go, ih, numberFrom_append]

theorem generate_eq_spec (config : Config) :
    generate_cours_from_config config = specCurriculumExpansion config :=
  generate_go_eq_numberFrom config config.groupes_eleves 0

theorem length_numberFrom (k : Nat) (l : List (String × String)) :
    (numberFrom k l).length = l.length := by
  induction l generalizing k with
  | nil => rfl
  | cons p rest ih => simp [numberFrom, ih]

theorem map_id_generate (config : Config) :
    (generate_cours_from_config config).map Cours.id =
      List.range (generate_cours_from_config config).length := by
  rw [generate_eq_spec, specCurriculumExpansion, map_id_numberFrom,
    length_numberFrom, List.range_eq_range']

/-- Sequence ids are injective over the generated course list. -/
theorem generate_id_inj (config : Config) {a b : Cours}
    (ha : a ∈ generate_cours_from_config config)
    (hb : b ∈ generate_cours_from_config config) (h : a.id = b.id) : a = b := by
  have hn : ((generate_cours_from_config config).map Cours.id).Nodup := by
    rw [map_id_generate]; exact List.nodup_range _
  exact List.inj_on_of_nodup_map hn ha hb h

/-!
## FeasibilityFilter and ConstraintEncoder (src/main.py lines 117-184)

The variable-creation loop nests over teachers, rooms, days and hours and
`continue`s past any tuple failing competency, room type, or the teacher's
day/hour availability; surviving tuples become keys of the `assignments`
dict in loop order. `infos_matieres[matiere]["salle_requise"]` is modelled
by `config.matieres.lookup`; a missing subject (a `KeyError` in Python,
excluded upstream by `validate_config`) admits no room here.
-/

/-- The `(prof, salle, jour, heure)` tuples admitted for one course
instance, i.e. the keys the variable-creation loop inserts for it. -/
def candidateKeys (config : Config) (c : Cours) : List Key :=
  config.professeurs.flatMap (fun pp =>
    if c.matiere ∈ pp.2.matieres_enseignees then
      config.salles.flatMap (fun ss =>
        if config.matieres.lookup c.matiere = some ss.2.type then
          config.jours.flatMap (fun jour =>
            if jour ∈ pp.2.jours_indisponibles then []
            else
              config.heures.filterMap (fun heure =>
                if heure ∈ pp.2.heures_indisponibles then none
                else some ⟨c.groupe, c.matiere, c.id, pp.1, ss.1, jour, heure⟩))
        else [])
    else [])

/-- All keys of the `assignments` dict, in insertion order (outer loop over
`cours_a_planifier`). -/
def allKeys (config : Config) : List Key :=
  (generate_cours_from_config config).flatMap (candidateKeys config)

/-- A constraint emitted to the solver over decision variables, identified by
their `assignments` keys. -/
inductive Constraint where
  | exactlyOne (vars : List Key)
  | atMostOne (vars : List Key)
deriving DecidableEq

/-- The C1 coverage family (lines 153-157): for each course, the variables
whose key carries its `cours_id`; the `AddExactlyOne` call is guarded by
`if cours_vars:`, so an empty candidate set yields no constraint and no
error. -/
def coverageConstraints (config : Config) : List Constraint :=
  (generate_cours_from_config config).filterMap (fun c =>
    let vs := (allKeys config).filter (fun k => k.id = c.id)
    if vs.isEmpty then none else some (Constraint.exactlyOne vs))

/-- Full characterization of membership in `candidateKeys`. -/
theorem mem_candidateKeys (config : Config) (c : Cours) (k : Key) :
    k ∈ candidateKeys config c ↔
      ∃ pinfo sinfo,
        (k.prof, pinfo) ∈ config.professeurs ∧
        (k.salle, sinfo) ∈ config.salles ∧
        c.matiere ∈ pinfo.matieres_enseignees ∧
        config.matieres.lookup c.matiere = some sinfo.type ∧
        k.jour ∈ config.jours ∧ k.jour ∉ pinfo.jours_indisponibles ∧
        k.heure ∈ config.heures ∧ k.heure ∉ pinfo.heures_indisponibles ∧
        k.groupe = c.groupe ∧ k.matiere = c.matiere ∧ k.id = c.id := by
  constructor
  · intro hk
    rw [candidateKeys] at hk
    rcases List.mem_flatMap.mp hk with ⟨pp, hpp, hk1⟩
    by_cases hcomp : c.matiere ∈ pp.2.matieres_enseignees
    · rw [if_pos hcomp] at hk1
      rcases List.mem_flatMap.mp hk1 with ⟨ss, hss, hk2⟩
      by_cases htype : config.matieres.lookup c.matiere = some ss.2.type
      · rw [if_pos htype] at hk2
        rcases List.mem_flatMap.mp hk2 with ⟨jour, hjour, hk3⟩
        by_cases hjind : jour ∈ pp.2.jours_indisponibles
        · rw [if_pos hjind] at hk3; cases hk3
        · rw [if_neg hjind] at hk3
          rcases List.mem_filterMap.mp hk3 with ⟨heure, hheure, hk4⟩
          by_cases hhind : heure ∈ pp.2.heures_indisponibles
          · rw [if_pos hhind] at hk4; cases hk4
          · rw [if_neg hhind] at hk4
            cases (Option.some.injEq _ _).mp hk4
            exact ⟨pp.2, ss.2, hpp, hss, hcomp, htype, hjour, hjind, hheure, hhind,
              rfl, rfl, rfl⟩
      · rw [if_neg htype] at hk2; cases hk2
    · rw [if_neg hcomp] at hk1; cases hk1
  · rintro ⟨pinfo, sinfo, hpp, hss, hcomp, htype, hjour, hjind, hheure, hhind,
      hg, hm, hi⟩
    rw [candidateKeys]
    refine List.mem_flatMap.mpr ⟨(k.prof, pinfo), hpp, ?_⟩
    rw [if_pos hcomp]
    refine List.mem_flatMap.mpr ⟨(k.salle, sinfo), hss, ?_⟩
    rw [if_pos htype]
    refine List.mem_flatMap.mpr ⟨k.jour, hjour, ?_⟩
    rw [if_neg hjind]
    refine List.mem_filterMap.mpr ⟨k.heure, hheure, ?_⟩
    rw [if_neg hhind]
    congr 1
    cases k
    simp only at hg hm hi
    simp [hg, hm, hi]

/-- Every admitted key carries its course's id. -/
theorem candidateKeys_id {config : Config} {c : Cours} {k : Key}
    (hk : k ∈ candidateKeys config c) : k.id = c.id :=
  ((mem_candidateKeys config c k).mp hk).choose_spec.choose_spec.2.2.2.2.2.2.2.2.2.2

/-!
## SolverAdapter status branch and diagnostic pass (src/main.py lines 200-243)

After `solver.Solve(model)` the code decodes a solution only on
`OPTIMAL`/`FEASIBLE`; on any other status it prints, for each subject
appearing in `cours_a_planifier`, the number of courses of that subject,
the number of competent teachers and the number of type-compatible rooms,
and returns without building a schedule. Python iterates
`set(c[1] for c in cours_a_planifier)` whose order is arbitrary; the model
fixes first-occurrence order, which the claims do not depend on.
-/

/-- Solver status as read back from the external engine. -/
inductive SolverStatus where
  | optimal
  | feasible
  | infeasible
  | unknown
deriving DecidableEq

/-- Outcome of the post-solve phase: either a decoded schedule or the
per-subject diagnostic rows `(matiere, nb cours, nb profs, nb salles)`. -/
inductive RunResult where
  | solved (solution : Solution)
  | diagnosed (diag : List (String × Nat × Nat × Nat))
deriving DecidableEq

/-- The `professeurs` dict of line 96: teacher name to subjects taught. -/
def profMatieres (config : Config) : List (String × List String) :=
  config.professeurs.map (fun p => (p.1, p.2.matieres_enseignees))

/-- The diagnostic rows printed on lines 213-217, one per distinct subject of
the course list. -/
def diagnostics (cours_a_planifier : List Cours)
    (professeurs : List (String × List String))
    (salles : List (String × SalleInfo))
    (infos_matieres : List (String × String)) :
    List (String × Nat × Nat × Nat) :=
  (dedupAux [] (cours_a_planifier.map Cours.matiere)).map (fun m =>
    (m,
     (cours_a_planifier.filter (fun c => c.matiere = m)).length,
     (professeurs.filter (fun p => m ∈ p.2)).length,
     (salles.filter (fun s => infos_matieres.lookup m = some s.2.type)).length))

/-- Solution decoding (lines 222-226): keep the true-valued keys in
`assignments` insertion order and group them by `groupe` in first-encounter
order, each entry keeping `(jour, heure, matiere, prof, salle)`. -/
def decodeSolution (config : Config) (values : Key → Bool) : Solution :=
  let keys := (allKeys config).filter values
  (dedupAux [] (keys.map Key.groupe)).map (fun g =>
    (g, (keys.filter (fun k => k.groupe = g)).map
          (fun k => ⟨k.jour, k.heure, k.matiere, k.prof, k.salle⟩)))

/-- The status branch of lines 200-226: decode on optimal/feasible, otherwise
emit the diagnostic rows and produce no schedule. -/
def postSolve (config : Config) (status : SolverStatus) (values : Key → Bool) :
    RunResult :=
  if status = SolverStatus.optimal ∨ status = SolverStatus.feasible then
    RunResult.solved (decodeSolution config values)
  else
    RunResult.diagnosed (diagnostics (generate_cours_from_config config)
      (profMatieres config) config.salles config.matieres)

/-!
## Validator — `verifier_solution` (src/main.py lines 359-413)

The function walks every entry of every group, printing a message for each
failed competency or room-type check, then compares the entry count with
the course count, then reports every `(resource, slot)` pair holding more
than one entry, for teachers, rooms and groups in that order. It keeps a
running `is_valid` flag and returns only that flag; each printed message is
modelled as a `Violation` value carrying exactly the interpolated data, and
the model returns the flag together with the message list.
-/

/-- One printed validator message. `conflit kind resource jour heure count`
models the line `ERREUR Conflit: <kind> '<resource>' a <count> cours
simultanes a (<jour>, <heure>)`. -/
inductive Violation where
  | competence (prof matiere : String)
  | salleType (matiere requise salle : String)
  | nombre (attendus assignes : Nat)
  | conflit (kind resource jour heure : String) (count : Nat)
deriving DecidableEq

/-- Whether a string appears among the string fields of a violation, i.e.
whether the printed message names it. -/
def Violation.mentions (v : Violation) (s : String) : Bool :=
  match v with
  | .competence a b => a == s || b == s
  | .salleType a b c => a == s || b == s || c == s
  | .nombre _ _ => false
  | .conflit a b c d _ => a == s || b == s || c == s || d == s

/-- All `(groupe, entry)` pairs of a solution, in iteration order of
`solution.items()`. -/
def allEntries (sol : Solution) : List (String × Entry) :=
  sol.flatMap (fun ge => ge.2.map (fun e => (ge.1, e)))

/-- Test 1 (line 381): `matiere not in professeurs[prof]`. A teacher absent
from the dict (a `KeyError` in Python) is modelled as not competent. -/
def profCompetent (professeurs : List (String × List String))
    (prof matiere : String) : Bool :=
  match professeurs.lookup prof with
  | some mats => mats.contains matiere
  | none => false

/-- Test 2 (lines 386-389): room type against `salle_requise`, as violation
messages. A subject or room missing from its dict (a `KeyError` in Python)
is modelled as a violation with an empty `requise` field where unknown. -/
def entrySalleViolation (salles : List (String × SalleInfo))
    (infos_matieres : List (String × String)) (e : Entry) : List Violation :=
  match infos_matieres.lookup e.matiere, salles.lookup e.salle with
  | some requise, some sinfo =>
      if sinfo.type == requise then [] else [Violation.salleType e.matiere requise e.salle]
  | some requise, none => [Violation.salleType e.matiere requise e.salle]
  | none, _ => [Violation.salleType e.matiere "" e.salle]

/-- Teacher occupancy pairs `(prof, (jour, heure))` in entry order —
the contents of `conflits_prof`. -/
def profOccs (sol : Solution) : List (String × (String × String)) :=
  (allEntries sol).map (fun ge => (ge.2.prof, (ge.2.jour, ge.2.heure)))

/-- Room occupancy pairs `(salle, (jour, heure))` — `conflits_salle`. -/
def salleOccs (sol : Solution) : List (String × (String × String)) :=
  (allEntries sol).map (fun ge => (ge.2.salle, (ge.2.jour, ge.2.heure)))

/-- Group occupancy pairs `(groupe, (jour, heure))` — `conflits_groupe`. -/
def groupeOccs (sol : Solution) : List (String × (String × String)) :=
  (allEntries sol).map (fun ge => (ge.1, (ge.2.jour, ge.2.heure)))

/-- The slot list of one resource inside a `conflits_*` dict: every timeslot
appended for that resource, in entry order. -/
def resourceSlots (occs : List (String × (String × String))) (r : String) :
    List (String × String) :=
  (occs.filter (fun o => o.1 = r)).map Prod.snd

/-- Tests 4-6 (lines 397-407): for each resource in first-encounter order,
count its slots with `Counter` (keys in first-occurrence order) and report
each slot holding more than one entry. -/
def conflitsOf (kind : String) (occs : List (String × (String × String))) :
    List Violation :=
  (dedupAux [] (occs.map Prod.fst)).flatMap (fun r =>
    (dedupAux [] (resourceSlots occs r)).filterMap (fun s =>
      if 1 < countEq (resourceSlots occs r) s then
        some (Violation.conflit kind r s.1 s.2 (countEq (resourceSlots occs r) s))
      else none))

/-- The violations printed by Tests 1-2 while walking the entries. -/
def perEntryViolations (sol : Solution)
    (professeurs : List (String × List String))
    (salles : List (String × SalleInfo))
    (infos_matieres : List (String × String)) : List Violation :=
  (allEntries sol).flatMap (fun ge =>
    (if profCompetent professeurs ge.2.prof ge.2.matiere then []
     else [Violation.competence ge.2.prof ge.2.matiere]) ++
    entrySalleViolation salles infos_matieres ge.2)

/-- Test 3 (lines 392-394): entry count against course count. -/
def nombreViolations (sol : Solution) (cours_planifies : List Cours) :
    List Violation :=
  if (allEntries sol).length = cours_planifies.length then []
  else [Violation.nombre cours_planifies.length (allEntries sol).length]

/-- The conflict reports of Tests 4-6, teacher then room then group. -/
def conflitViolations (sol : Solution) : List Violation :=
  conflitsOf "professeur" (profOccs sol) ++
    conflitsOf "salle" (salleOccs sol) ++ conflitsOf "groupe" (groupeOccs sol)

/-- `verifier_solution`: the returned validity flag together with the list of
printed violation messages, in print order. The Python function also takes
`jours` and `heures` but never uses them. -/
def verifier_solution (sol : Solution) (cours_planifies : List Cours)
    (professeurs : List (String × List String))
    (salles : List (String × SalleInfo))
    (infos_matieres : List (String × String)) : Bool × List Violation :=
  let vs := perEntryViolations sol professeurs salles infos_matieres ++
    nombreViolations sol cours_planifies ++ conflitViolations sol
  (vs.isEmpty, vs)

/-!
## OccupancyAnalyzer — `afficher_salles_libres` (src/main.py lines 245-356)
and the per-slot sets of `export_salles_libres_to_json` (lines 484-488)

`salles_occupees` is a `defaultdict(set)` keyed by `(jour, heure)` and
filled by one pass over the solution entries: its keys are the occupied
slots in first-encounter order and each value the set of distinct rooms
occupied at that slot. Rates are computed with float division; the model
uses exact rationals, which agree on the stated bounds.
-/

/-- The `((jour, heure), salle)` pair of every solution entry, in entry
order — the insertion stream of `salles_occupees`. -/
def slotRoomPairs (sol : Solution) : List ((String × String) × String) :=
  (allEntries sol).map (fun ge => ((ge.2.jour, ge.2.heure), ge.2.salle))

/-- Keys of `salles_occupees`: the occupied slots, in first-encounter order. -/
def occSlots (sol : Solution) : List (String × String) :=
  dedupAux [] ((slotRoomPairs sol).map Prod.fst)

/-- The set `salles_occupees[(jour, heure)]`: distinct rooms occupied at a
slot, as a first-occurrence list. -/
def occRooms (sol : Solution) (slot : String × String) : List String :=
  dedupAux [] (((slotRoomPairs sol).filter (fun p => p.1 = slot)).map Prod.snd)

/-- `total_creneaux = len(jours) * len(heures)` (line 325). -/
def total_creneaux (config : Config) : Nat :=
  config.jours.length * config.heures.length

/-- `occupation_par_salle[salle]` (lines 330-333): the number of slots whose
occupied set contains the room. -/
def occupationParSalle (sol : Solution) (salle : String) : Nat :=
  ((occSlots sol).filter (fun s => salle ∈ occRooms sol s)).length

/-- Per-room occupancy rate `(nb_occupations / total_creneaux) * 100`
(line 338), as an exact rational. -/
def tauxSalle (config : Config) (sol : Solution) (salle : String) : ℚ :=
  (occupationParSalle sol salle : ℚ) / (total_creneaux config : ℚ) * 100

/-- `total_occupations = sum(len(salles_occ) for ...)` (line 345). -/
def totalOccupations (sol : Solution) : Nat :=
  ((occSlots sol).map (fun s => (occRooms sol s).length)).sum

/-- Global occupancy rate
`(total_occupations / (total_creneaux * total_salles)) * 100` (line 346). -/
def tauxGlobal (config : Config) (sol : Solution) : ℚ :=
  (totalOccupations sol : ℚ) /
    ((total_creneaux config : ℚ) * (config.salles.length : ℚ)) * 100

/-- `occupation_par_creneau` (line 350): slot to distinct-occupied-room
count, in `salles_occupees` key order. -/
def occupation_par_creneau (sol : Solution) : List ((String × String) × Nat) :=
  (occSlots sol).map (fun s => (s, (occRooms sol s).length))

/-- One step of Python `max(..., key=lambda x: x[1])`: keep the incumbent
unless the new item is strictly greater. -/
def maxStep (acc : Option ((String × String) × Nat)) (x : (String × String) × Nat) :
    Option ((String × String) × Nat) :=
  match acc with
  | none => some x
  | some m => if x.2 > m.2 then some x else some m

/-- One step of Python `min(..., key=lambda x: x[1])`. -/
def minStep (acc : Option ((String × String) × Nat)) (x : (String × String) × Nat) :
    Option ((String × String) × Nat) :=
  match acc with
  | none => some x
  | some m => if x.2 < m.2 then some x else some m

/-- `creneau_max = max(occupation_par_creneau.items(), key=...)` (line 352):
the first item attaining the maximal count, `none` on an empty dict. -/
def maxByFirst (l : List ((String × String) × Nat)) :
    Option ((String × String) × Nat) :=
  l.foldl maxStep none

/-- `creneau_min = min(...)` (line 353). -/
def minByFirst (l : List ((String × String) × Nat)) :
    Option ((String × String) × Nat) :=
  l.foldl minStep none

/-- The slot grid in day-then-hour order. -/
def gridSlots (config : Config) : List (String × String) :=
  config.jours.flatMap (fun j => config.heures.map (fun h => (j, h)))

/-- Modelled from the specification wording of the claim: the least-occupied
slot chosen by distinct-occupied-room count over the whole time-slot grid,
ties broken by the earliest slot in day-then-hour order. -/
def specLeastOccupiedSlot (config : Config) (sol : Solution) :
    Option ((String × String) × Nat) :=
  minByFirst ((gridSlots config).map (fun s => (s, (occRooms sol s).length)))

/-- Modelled from the specification wording of the claim: the most-occupied
slot over the whole grid, ties broken by day-then-hour order. -/
def specMostOccupiedSlot (config : Config) (sol : Solution) :
    Option ((String × String) × Nat) :=
  maxByFirst ((gridSlots config).map (fun s => (s, (occRooms sol s).length)))

/-- Per-slot free rooms, `set(salles.keys()) - salles_occupees_creneau`
(line 271 and line 488): the configured room names not occupied at the slot. -/
def sallesLibres (config : Config) (sol : Solution) (slot : String × String) :
    List String :=
  (config.salles.map Prod.fst).filter (fun r => r ∉ occRooms sol slot)

/-!
## Concrete fixtures used by witnesses and counterexamples
-/

/-- A minimal feasible configuration: one group, one subject, one competent
always-available teacher, one compatible room, a single slot. -/
def cfgA : Config :=
  { groupes_eleves := [⟨"G1", "N1"⟩]
    salles := [("R1", ⟨"standard", 30, []⟩)]
    professeurs := [("P1", ⟨["Math"], [], []⟩)]
    matieres := [("Math", "standard")]
    curriculum := [("N1", [("Math", 1)])]
    jours := ["Lundi"]
    heures := ["8h"] }

/-- The sole course instance of `cfgA`. -/
def coursA : Cours := ⟨"G1", "Math", 0⟩

/-- The sole candidate key of `cfgA`. -/
def keyA : Key := ⟨"G1", "Math", 0, "P1", "R1", "Lundi", "8h"⟩

/-- The schedule decoding of the unique solution of `cfgA`. -/
def solA : Solution := [("G1", [⟨"Lundi", "8h", "Math", "P1", "R1"⟩])]

/-- Like `cfgA` but the sole teacher is unavailable on the only day, so the
course has an empty candidate set. -/
def cfgB : Config :=
  { cfgA with professeurs := [("P1", ⟨["Math"], ["Lundi"], []⟩)] }

/-!
## Claim theorems
-/

/-- C1: for every course instance, every (teacher, room, day, hour) tuple
admitted by the feasibility filter satisfies all four eligibility rules:
the teacher is competent in the course's subject, the room's type equals
the subject's required room type, the day is not in the teacher's
unavailable-days set, and the hour is not in the teacher's
unavailable-hours set. -/
theorem C1_filter_soundness (config : Config) (c : Cours) (k : Key)
    (hk : k ∈ candidateKeys config c) :
    ∃ pinfo sinfo,
      (k.prof, pinfo) ∈ config.professeurs ∧
      (k.salle, sinfo) ∈ config.salles ∧
      c.matiere ∈ pinfo.matieres_enseignees ∧
      config.matieres.lookup c.matiere = some sinfo.type ∧
      k.jour ∉ pinfo.jours_indisponibles ∧
      k.heure ∉ pinfo.heures_indisponibles := by
  rcases (mem_candidateKeys config c k).mp hk with
    ⟨pinfo, sinfo, hpp, hss, hcomp, htype, _, hjind, _, hhind, _, _, _⟩
  exact ⟨pinfo, sinfo, hpp, hss, hcomp, htype, hjind, hhind⟩

/-- Witness for C1 at the concrete fixture `cfgA`. -/
theorem C1_filter_soundness_witness :
    keyA ∈ candidateKeys cfgA coursA ∧
    ∃ pinfo sinfo,
      (keyA.prof, pinfo) ∈ cfgA.professeurs ∧
      (keyA.salle, sinfo) ∈ cfgA.salles ∧
      coursA.matiere ∈ pinfo.matieres_enseignees ∧
      cfgA.matieres.lookup coursA.matiere = some sinfo.type ∧
      keyA.jour ∉ pinfo.jours_indisponibles ∧
      keyA.heure ∉ pinfo.heures_indisponibles :=
  ⟨by decide, C1_filter_soundness cfgA coursA keyA (by decide)⟩

/-- C2 counterexample: in `cfgB` the sole course has an empty candidate set,
yet the encoding raises nothing and emits no coverage constraint at all —
the exactly-one constraint is silently omitted. -/
theorem C2_counterexample :
    generate_cours_from_config cfgB = [⟨"G1", "Math", 0⟩] ∧
    candidateKeys cfgB ⟨"G1", "Math", 0⟩ = [] ∧
    coverageConstraints cfgB = [] := by decide

/-- C2 amended: if a course's candidate set is empty, the encoding (which
has no error path) silently omits the exactly-one coverage constraint for
that course: no emitted coverage constraint references its id. -/
theorem C2_amended_empty_candidates_omitted (config : Config) (c : Cours)
    (hc : c ∈ generate_cours_from_config config)
    (hempty : candidateKeys config c = []) :
    ∀ cs ∈ coverageConstraints config, ∀ vs, cs = Constraint.exactlyOne vs →
      ∀ k ∈ vs, k.id ≠ c.id := by
  intro cs hcs vs hvs k hk hid
  rcases List.mem_filterMap.mp hcs with ⟨c', _, hsome⟩
  by_cases he : ((allKeys config).filter (fun k => k.id = c'.id)).isEmpty
  · simp only [he, if_true] at hsome
    cases hsome
  · simp only [he, if_false] at hsome
    cases (Option.some.injEq _ _).mp hsome
    cases hvs
    have hk' := List.mem_filter.mp hk
    rcases List.mem_flatMap.mp hk'.1 with ⟨c'', hc'', hkc''⟩
    have hkid : k.id = c''.id := candidateKeys_id hkc''
    have : c'' = c := generate_id_inj config hc'' hc (by omega)
    subst this
    rw [hempty] at hkc''
    cases hkc''

/-- Witness for the amended C2 at the concrete fixture `cfgB`. -/
theorem C2_amended_witness :
    (⟨"G1", "Math", 0⟩ : Cours) ∈ generate_cours_from_config cfgB ∧
    candidateKeys cfgB ⟨"G1", "Math", 0⟩ = [] ∧
    ∀ cs ∈ coverageConstraints cfgB, ∀ vs, cs = Constraint.exactlyOne vs →
      ∀ k ∈ vs, k.id ≠ (⟨"G1", "Math", 0⟩ : Cours).id :=
  ⟨by decide, by decide,
    C2_amended_empty_candidates_omitted cfgB ⟨"G1", "Math", 0⟩ (by decide) (by decide)⟩

/-- C4: on a solver status other than optimal/feasible, no schedule is
produced — the run result is the diagnostic rows — and every subject
appearing in the course list gets a row with its required course count,
competent-teacher count, and compatible-room count. -/
theorem C4_infeasible_diagnostics (config : Config) (status : SolverStatus)
    (values : Key → Bool)
    (h : status ≠ SolverStatus.optimal ∧ status ≠ SolverStatus.feasible) :
    postSolve config status values =
      RunResult.diagnosed (diagnostics (generate_cours_from_config config)
        (profMatieres config) config.salles config.matieres) ∧
    ∀ m ∈ (generate_cours_from_config config).map Cours.matiere,
      (m,
       ((generate_cours_from_config config).filter (fun c => c.matiere = m)).length,
       ((profMatieres config).filter (fun p => m ∈ p.2)).length,
       (config.salles.filter (fun s => config.matieres.lookup m = some s.2.type)).length)
        ∈ diagnostics (generate_cours_from_config config) (profMatieres config)
            config.salles config.matieres := by
  constructor
  · rw [postSolve, if_neg]
    rintro (h1 | h2)
    · exact h.1 h1
    · exact h.2 h2
  · intro m hm
    rw [diagnostics]
    exact List.mem_map.mpr ⟨m, mem_dedupAux.mpr ⟨hm, List.not_mem_nil m⟩, rfl⟩

/-- Witness for C4: `cfgA` with an infeasible status. -/
theorem C4_infeasible_diagnostics_witness :
    (SolverStatus.infeasible ≠ SolverStatus.optimal ∧
     SolverStatus.infeasible ≠ SolverStatus.feasible) ∧
    (postSolve cfgA SolverStatus.infeasible (fun _ => false) =
      RunResult.diagnosed (diagnostics (generate_cours_from_config cfgA)
        (profMatieres cfgA) cfgA.salles cfgA.matieres) ∧
    ∀ m ∈ (generate_cours_from_config cfgA).map Cours.matiere,
      (m,
       ((generate_cours_from_config cfgA).filter (fun c => c.matiere = m)).length,
       ((profMatieres cfgA).filter (fun p => m ∈ p.2)).length,
       (cfgA.salles.filter (fun s => cfgA.matieres.lookup m = some s.2.type)).length)
        ∈ diagnostics (generate_cours_from_config cfgA) (profMatieres cfgA)
            cfgA.salles cfgA.matieres) :=
  ⟨by decide, C4_infeasible_diagnostics cfgA SolverStatus.infeasible
    (fun _ => false) (by decide)⟩

/-- C5: curriculum expansion is deterministic and ordered by group order,
then subject order, then occurrence index, with sequence ids assigned in
exactly that order: the generated list equals the spec-ordered flattening
numbered consecutively from 0. -/
theorem C5_expansion_order (config : Config) :
    generate_cours_from_config config = specCurriculumExpansion config :=
  generate_eq_spec config

/-- C8: a group whose grade level has no curriculum entry contributes zero
course instances, and expansion of the remaining groups is unchanged. -/
theorem C8_missing_level_skipped (cfg : Config) (gs1 gs2 : List GroupeInfo)
    (g : GroupeInfo) (h : cfg.curriculum.lookup g.niveau = none) :
    groupeCours cfg g = [] ∧
    generate_cours_from_config { cfg with groupes_eleves := gs1 ++ g :: gs2 } =
      generate_cours_from_config { cfg with groupes_eleves := gs1 ++ gs2 } := by
  constructor
  · rw [groupeCours, h]
  · rw [generate_cours_from_config, generate_cours_from_config,
      generate_go_eq_numberFrom, generate_go_eq_numberFrom]
    congr 1
    have hg : groupeCours { cfg with groupes_eleves := gs1 ++ g :: gs2 } g = [] := by
      rw [groupeCours]
      exact h ▸ rfl
    simp only [List.flatMap_append, List.flatMap_cons]
    rw [show groupeCours { cfg with groupes_eleves := gs1 ++ g :: gs2 } =
        groupeCours { cfg with groupes_eleves := gs1 ++ gs2 } from rfl] at hg ⊢
    rw [hg, List.nil_append]

/-- Witness for C8: a second group with an unknown grade level is skipped. -/
theorem C8_missing_level_skipped_witness :
    cfgA.curriculum.lookup "N9" = none ∧
    (groupeCours cfgA ⟨"G2", "N9"⟩ = [] ∧
    generate_cours_from_config
        { cfgA with groupes_eleves := [⟨"G1", "N1"⟩] ++ (⟨"G2", "N9"⟩ : GroupeInfo) :: [] } =
      generate_cours_from_config { cfgA with groupes_eleves := [⟨"G1", "N1"⟩] ++ [] }) :=
  ⟨by decide, C8_missing_level_skipped cfgA [⟨"G1", "N1"⟩] [] ⟨"G2", "N9"⟩ (by decide)⟩

/-- C9: the sequence ids of the generated course list are exactly
0, 1, ..., n-1 in list order: mapping each course to its id gives
`List.range n`, so the i-th course carries id i. -/
theorem C9_ids_consecutive (config : Config) :
    (generate_cours_from_config config).map Cours.id =
      List.range (generate_cours_from_config config).length :=
  map_id_generate config

/-- C10: per slot, the computed free-room set is exactly the room universe
minus the occupied set: free and occupied rooms are disjoint, and (when
every occupied room is a configured room) their union is the room universe. -/
theorem C10_free_occupied_partition (config : Config) (sol : Solution)
    (slot : String × String)
    (h : ∀ r ∈ occRooms sol slot, r ∈ config.salles.map Prod.fst) :
    ∀ r, (r ∈ sallesLibres config sol slot ↔
            r ∈ config.salles.map Prod.fst ∧ r ∉ occRooms sol slot) ∧
         ¬(r ∈ sallesLibres config sol slot ∧ r ∈ occRooms sol slot) ∧
         (r ∈ config.salles.map Prod.fst ↔
            r ∈ sallesLibres config sol slot ∨ r ∈ occRooms sol slot) := by
  intro r
  have hmem : r ∈ sallesLibres config sol slot ↔
      r ∈ config.salles.map Prod.fst ∧ r ∉ occRooms sol slot := by
    simp [sallesLibres]
  refine ⟨hmem, ?_, ?_⟩
  · rintro ⟨h1, h2⟩
    exact (hmem.mp h1).2 h2
  · constructor
    · intro hu
      by_cases ho : r ∈ occRooms sol slot
      · exact Or.inr ho
      · exact Or.inl (hmem.mpr ⟨hu, ho⟩)
    · rintro (hf | ho)
      · exact (hmem.mp hf).1
      · exact h r ho

/-- Witness for C10 at the solved fixture `solA`. -/
theorem C10_free_occupied_partition_witness :
    (∀ r ∈ occRooms solA ("Lundi", "8h"), r ∈ cfgA.salles.map Prod.fst) ∧
    ∀ r, (r ∈ sallesLibres cfgA solA ("Lundi", "8h") ↔
            r ∈ cfgA.salles.map Prod.fst ∧ r ∉ occRooms solA ("Lundi", "8h")) ∧
         ¬(r ∈ sallesLibres cfgA solA ("Lundi", "8h") ∧
            r ∈ occRooms solA ("Lundi", "8h")) ∧
         (r ∈ cfgA.salles.map Prod.fst ↔
            r ∈ sallesLibres cfgA solA ("Lundi", "8h") ∨
            r ∈ occRooms solA ("Lundi", "8h")) :=
  ⟨by decide, C10_free_occupied_partition cfgA solA ("Lundi", "8h") (by decide)⟩

/-!
## Occupancy lemmas for C6
-/

theorem length_grid_aux (jours heures : List String) :
    (jours.flatMap (fun j => heures.map (fun h => (j, h)))).length =
      jours.length * heures.length := by
  induction jours with
  | nil => simp
  | cons j js ih =>
    simp only [List.flatMap_cons, List.length_append, List.length_map, ih,
      List.length_cons, Nat.succ_mul, Nat.add_comm]

theorem length_gridSlots (config : Config) :
    (gridSlots config).length = total_creneaux config :=
  length_grid_aux config.jours config.heures

theorem occSlots_subset_grid (config : Config) (sol : Solution)
    (hgrid : ∀ ge ∈ allEntries sol,
      ge.2.jour ∈ config.jours ∧ ge.2.heure ∈ config.heures) :
    ∀ s ∈ occSlots sol, s ∈ gridSlots config := by
  intro s hs
  have hs1 : s ∈ (slotRoomPairs sol).map Prod.fst := (mem_dedupAux.mp hs).1
  rcases List.mem_map.mp hs1 with ⟨p, hp, rfl⟩
  rcases List.mem_map.mp hp with ⟨ge, hge, rfl⟩
  rcases hgrid ge hge with ⟨hj, hh⟩
  exact List.mem_flatMap.mpr ⟨ge.2.jour, hj, List.mem_map.mpr ⟨ge.2.heure, hh, rfl⟩⟩

theorem length_occSlots_le (config : Config) (sol : Solution)
    (hgrid : ∀ ge ∈ allEntries sol,
      ge.2.jour ∈ config.jours ∧ ge.2.heure ∈ config.heures) :
    (occSlots sol).length ≤ total_creneaux config := by
  rw [← length_gridSlots]
  exact ((nodup_dedupAux _ _).subperm
    (fun s hs => occSlots_subset_grid config sol hgrid s hs)).length_le

theorem length_occRooms_le (config : Config) (sol : Solution)
    (hrooms : ∀ ge ∈ allEntries sol, ge.2.salle ∈ config.salles.map Prod.fst)
    (s : String × String) :
    (occRooms sol s).length ≤ config.salles.length := by
  have hsub : ∀ r ∈ occRooms sol s, r ∈ config.salles.map Prod.fst := by
    intro r hr
    have hr1 := (mem_dedupAux.mp hr).1
    rcases List.mem_map.mp hr1 with ⟨p, hp, rfl⟩
    rcases List.mem_map.mp (List.mem_filter.mp hp).1 with ⟨ge, hge, rfl⟩
    exact hrooms ge hge
  have := ((nodup_dedupAux _ _).subperm hsub).length_le
  simpa using this

theorem occupationParSalle_le (config : Config) (sol : Solution)
    (hgrid : ∀ ge ∈ allEntries sol,
      ge.2.jour ∈ config.jours ∧ ge.2.heure ∈ config.heures) (salle : String) :
    occupationParSalle sol salle ≤ total_creneaux config :=
  le_trans (List.length_filter_le _ _) (length_occSlots_le config sol hgrid)

theorem totalOccupations_le (config : Config) (sol : Solution)
    (hgrid : ∀ ge ∈ allEntries sol,
      ge.2.jour ∈ config.jours ∧ ge.2.heure ∈ config.heures)
    (hrooms : ∀ ge ∈ allEntries sol, ge.2.salle ∈ config.salles.map Prod.fst) :
    totalOccupations sol ≤ total_creneaux config * config.salles.length := by
  have h1 : totalOccupations sol ≤ (occSlots sol).length * config.salles.length := by
    have := List.sum_le_card_nsmul
      ((occSlots sol).map (fun s => (occRooms sol s).length)) config.salles.length
      (by
        intro x hx
        rcases List.mem_map.mp hx with ⟨s, _, rfl⟩
        exact length_occRooms_le config sol hrooms s)
    simpa [totalOccupations, smul_eq_mul] using this
  exact le_trans h1
    (Nat.mul_le_mul_right _ (length_occSlots_le config sol hgrid))

theorem rate_in_bounds (n d : Nat) (hd : 0 < d) (hnd : n ≤ d) :
    0 ≤ (n : ℚ) / (d : ℚ) * 100 ∧ (n : ℚ) / (d : ℚ) * 100 ≤ 100 := by
  constructor
  · positivity
  · have h1 : (n : ℚ) / (d : ℚ) ≤ 1 := by
      rw [div_le_one (by exact_mod_cast hd)]
      exact_mod_cast hnd
    calc (n : ℚ) / (d : ℚ) * 100 ≤ 1 * 100 :=
          mul_le_mul_of_nonneg_right h1 (by norm_num)
      _ = 100 := by norm_num

/-- Counting distinct pairs fiberwise: summing, over the distinct first
components, the number of distinct second components of that fiber gives the
number of distinct pairs. -/
theorem dedup_card_fiberwise {α β : Type} [DecidableEq α] [DecidableEq β]
    (L : List (α × β)) :
    ((dedupAux [] (L.map Prod.fst)).map
        (fun s => (dedupAux [] ((L.filter (fun p => p.1 = s)).map Prod.snd)).length)).sum
      = (dedupAux ([] : List (α × β)) L).length := by
  rw [length_dedupAux_eq_card]
  rw [← List.sum_toFinset _ (nodup_dedupAux _ _), toFinset_dedupAux]
  have h2 : ∀ s ∈ (L.map Prod.fst).toFinset,
      (dedupAux [] ((L.filter (fun p => p.1 = s)).map Prod.snd)).length
        = (L.toFinset.filter (fun p => p.1 = s)).card := by
    intro s _
    rw [length_dedupAux_eq_card]
    have himg : ((L.filter (fun p => p.1 = s)).map Prod.snd).toFinset
        = Finset.image Prod.snd (L.toFinset.filter (fun p => p.1 = s)) := by
      ext b
      simp only [List.mem_toFinset, List.mem_map, List.mem_filter,
        Finset.mem_image, Finset.mem_filter, decide_eq_true_eq]
    rw [himg]
    refine Finset.card_image_of_injOn ?_
    intro p hp q hq hpq
    rw [Finset.coe_filter] at hp hq
    have hp' := hp.2
    have hq' := hq.2
    exact Prod.ext (hp'.trans hq'.symm) hpq
  rw [Finset.sum_congr rfl h2]
  exact (Finset.card_eq_sum_card_fiberwise (fun p hp =>
    List.mem_toFinset.mpr (List.mem_map.mpr
      ⟨p, List.mem_toFinset.mp hp, rfl⟩))).symm

/-- The total-occupations sum equals the number of distinct occupied
(room, slot) pairs of the schedule. -/
theorem totalOccupations_eq_pairs (sol : Solution) :
    totalOccupations sol = (dedupAux [] (slotRoomPairs sol)).length :=
  dedup_card_fiberwise (slotRoomPairs sol)

/-- C6: with at least one day, one hour and one room, and a schedule whose
entries use configured slots and rooms, every per-room occupancy rate and
the global occupancy rate lie in [0, 100], and the sum over slots of
distinct occupied-room counts equals the total number of distinct occupied
(room, slot) pairs — the numerator of the global rate. -/
theorem C6_occupancy_bounds (config : Config) (sol : Solution)
    (hj : config.jours ≠ []) (hh : config.heures ≠ []) (hs : config.salles ≠ [])
    (hgrid : ∀ ge ∈ allEntries sol,
      ge.2.jour ∈ config.jours ∧ ge.2.heure ∈ config.heures)
    (hrooms : ∀ ge ∈ allEntries sol, ge.2.salle ∈ config.salles.map Prod.fst) :
    (∀ salle, 0 ≤ tauxSalle config sol salle ∧ tauxSalle config sol salle ≤ 100) ∧
    (0 ≤ tauxGlobal config sol ∧ tauxGlobal config sol ≤ 100) ∧
    totalOccupations sol = (dedupAux [] (slotRoomPairs sol)).length := by
  have hcren : 0 < total_creneaux config :=
    Nat.mul_pos (List.length_pos.mpr hj) (List.length_pos.mpr hh)
  refine ⟨?_, ?_, totalOccupations_eq_pairs sol⟩
  · intro salle
    exact rate_in_bounds _ _ hcren (occupationParSalle_le config sol hgrid salle)
  · have hd : 0 < total_creneaux config * config.salles.length :=
      Nat.mul_pos hcren (List.length_pos.mpr hs)
    have hb := rate_in_bounds (totalOccupations sol)
      (total_creneaux config * config.salles.length) hd
      (totalOccupations_le config sol hgrid hrooms)
    have heq : tauxGlobal config sol =
        (totalOccupations sol : ℚ) /
          ((total_creneaux config * config.salles.length : ℕ) : ℚ) * 100 := by
      rw [tauxGlobal, Nat.cast_mul]
    rw [heq]
    exact hb

/-- Witness for C6 at the solved fixture `solA` over `cfgA`. -/
theorem C6_occupancy_bounds_witness :
    (cfgA.jours ≠ [] ∧ cfgA.heures ≠ [] ∧ cfgA.salles ≠ [] ∧
     (∀ ge ∈ allEntries solA,
        ge.2.jour ∈ cfgA.jours ∧ ge.2.heure ∈ cfgA.heures) ∧
     (∀ ge ∈ allEntries solA, ge.2.salle ∈ cfgA.salles.map Prod.fst)) ∧
    (∀ salle, 0 ≤ tauxSalle cfgA solA salle ∧ tauxSalle cfgA solA salle ≤ 100) ∧
    (0 ≤ tauxGlobal cfgA solA ∧ tauxGlobal cfgA solA ≤ 100) ∧
    totalOccupations solA = (dedupAux [] (slotRoomPairs solA)).length :=
  ⟨⟨by decide, by decide, by decide, by decide, by decide⟩,
    C6_occupancy_bounds cfgA solA (by decide) (by decide) (by decide)
      (by decide) (by decide)⟩

/-!
## Extremal-slot lemmas for C7
-/

/-- The running incumbent of Python `max(..., key=lambda x: x[1])` started at
`m`: replaced only by a strictly greater item. -/
def maxAcc (m : (String × String) × Nat) :
    List ((String × String) × Nat) → (String × String) × Nat
  | [] => m
  | x :: xs => if x.2 > m.2 then maxAcc x xs else maxAcc m xs

/-- The running incumbent of Python `min(..., key=lambda x: x[1])`. -/
def minAcc (m : (String × String) × Nat) :
    List ((String × String) × Nat) → (String × String) × Nat
  | [] => m
  | x :: xs => if x.2 < m.2 then minAcc x xs else minAcc m xs

theorem foldl_maxStep_some (l : List ((String × String) × Nat)) (m) :
    l.foldl maxStep (some m) = some (maxAcc m l) := by
  induction l generalizing m with
  | nil => rfl
  | cons x xs ih =>
    rw [List.foldl_cons]
    by_cases h : x.2 > m.2
    · rw [show maxStep (some m) x = some x by simp [maxStep, h], ih,
        show maxAcc m (x :: xs) = maxAcc x xs by simp [maxAcc, h]]
    · rw [show maxStep (some m) x = some m by simp [maxStep, h], ih,
        show maxAcc m (x :: xs) = maxAcc m xs by simp [maxAcc, h]]

theorem foldl_minStep_some (l : List ((String × String) × Nat)) (m) :
    l.foldl minStep (some m) = some (minAcc m l) := by
  induction l generalizing m with
  | nil => rfl
  | cons x xs ih =>
    rw [List.foldl_cons]
    by_cases h : x.2 < m.2
    · rw [show minStep (some m) x = some x by simp [minStep, h], ih,
        show minAcc m (x :: xs) = minAcc x xs by simp [minAcc, h]]
    · rw [show minStep (some m) x = some m by simp [minStep, h], ih,
        show minAcc m (x :: xs) = minAcc m xs by simp [minAcc, h]]

/-- `maxAcc m l` is the first element of `m :: l` attaining the maximal
count: everything strictly before it is strictly smaller, everything is
at most it. -/
theorem maxAcc_first_max (l : List ((String × String) × Nat)) (m) :
    ∃ l1 l2, m :: l = l1 ++ maxAcc m l :: l2 ∧
      (∀ q ∈ l1, q.2 < (maxAcc m l).2) ∧
      (∀ q ∈ m :: l, q.2 ≤ (maxAcc m l).2) := by
  induction l generalizing m with
  | nil =>
    exact ⟨[], [], rfl, by simp, by simp [maxAcc]⟩
  | cons x xs ih =>
    by_cases h : x.2 > m.2
    · have hr : maxAcc m (x :: xs) = maxAcc x xs := by simp [maxAcc, h]
      obtain ⟨l1, l2, heq, hlt, hle⟩ := ih x
      have hxle : x.2 ≤ (maxAcc x xs).2 := hle x (List.mem_cons_self x xs)
      rw [hr]
      refine ⟨m :: l1, l2, ?_, ?_, ?_⟩
      · rw [List.cons_append, ← heq]
      · intro q hq
        rcases List.mem_cons.mp hq with rfl | hq1
        · omega
        · exact hlt q hq1
      · intro q hq
        rcases List.mem_cons.mp hq with rfl | hq1
        · omega
        · exact hle q hq1
    · have hr : maxAcc m (x :: xs) = maxAcc m xs := by simp [maxAcc, h]
      obtain ⟨l1, l2, heq, hlt, hle⟩ := ih m
      have hmle : m.2 ≤ (maxAcc m xs).2 := hle m (List.mem_cons_self m xs)
      rw [hr]
      cases l1 with
      | nil =>
        have hc : m = maxAcc m xs ∧ xs = l2 := by simpa using heq
        have h1 := hc.1
        refine ⟨[], x :: xs, ?_, by simp, ?_⟩
        · rw [List.nil_append, ← h1]
        · intro q hq
          rcases List.mem_cons.mp hq with rfl | hq1
          · exact hmle
          · rcases List.mem_cons.mp hq1 with rfl | hq2
            · omega
            · exact hle q (List.mem_cons_of_mem m hq2)
      | cons a l1' =>
        have hc : m = a ∧ xs = l1' ++ maxAcc m xs :: l2 := by simpa using heq
        have ha := hc.1
        have hxs := hc.2
        have hmlt : m.2 < (maxAcc m xs).2 := by
          have := hlt a (List.mem_cons_self a l1')
          rw [← ha] at this
          exact this
        refine ⟨m :: x :: l1', l2, ?_, ?_, ?_⟩
        · rw [show (m :: x :: l1') ++ maxAcc m xs :: l2
              = m :: x :: (l1' ++ maxAcc m xs :: l2) from rfl, ← hxs]
        · intro q hq
          rcases List.mem_cons.mp hq with rfl | hq1
          · exact hmlt
          · rcases List.mem_cons.mp hq1 with rfl | hq2
            · omega
            · exact hlt q (ha ▸ List.mem_cons_of_mem a hq2)
        · intro q hq
          rcases List.mem_cons.mp hq with rfl | hq1
          · exact hmle
          · rcases List.mem_cons.mp hq1 with rfl | hq2
            · omega
            · exact hle q (List.mem_cons_of_mem m hq2)

/-- `minAcc m l` is the first element of `m :: l` attaining the minimal
count. -/
theorem minAcc_first_min (l : List ((String × String) × Nat)) (m) :
    ∃ l1 l2, m :: l = l1 ++ minAcc m l :: l2 ∧
      (∀ q ∈ l1, (minAcc m l).2 < q.2) ∧
      (∀ q ∈ m :: l, (minAcc m l).2 ≤ q.2) := by
  induction l generalizing m with
  | nil =>
    exact ⟨[], [], rfl, by simp, by simp [minAcc]⟩
  | cons x xs ih =>
    by_cases h : x.2 < m.2
    · have hr : minAcc m (x :: xs) = minAcc x xs := by simp [minAcc, h]
      obtain ⟨l1, l2, heq, hlt, hle⟩ := ih x
      have hxle : (minAcc x xs).2 ≤ x.2 := hle x (List.mem_cons_self x xs)
      rw [hr]
      refine ⟨m :: l1, l2, ?_, ?_, ?_⟩
      · rw [List.cons_append, ← heq]
      · intro q hq
        rcases List.mem_cons.mp hq with rfl | hq1
        · omega
        · exact hlt q hq1
      · intro q hq
        rcases List.mem_cons.mp hq with rfl | hq1
        · omega
        · exact hle q hq1
    · have hr : minAcc m (x :: xs) = minAcc m xs := by simp [minAcc, h]
      obtain ⟨l1, l2, heq, hlt, hle⟩ := ih m
      have hmle : (minAcc m xs).2 ≤ m.2 := hle m (List.mem_cons_self m xs)
      rw [hr]
      cases l1 with
      | nil =>
        have hc : m = minAcc m xs ∧ xs = l2 := by simpa using heq
        have h1 := hc.1
        refine ⟨[], x :: xs, ?_, by simp, ?_⟩
        · rw [List.nil_append, ← h1]
        · intro q hq
          rcases List.mem_cons.mp hq with rfl | hq1
          · exact hmle
          · rcases List.mem_cons.mp hq1 with rfl | hq2
            · omega
            · exact hle q (List.mem_cons_of_mem m hq2)
      | cons a l1' =>
        have hc : m = a ∧ xs = l1' ++ minAcc m xs :: l2 := by simpa using heq
        have ha := hc.1
        have hxs := hc.2
        have hmlt : (minAcc m xs).2 < m.2 := by
          have := hlt a (List.mem_cons_self a l1')
          rw [← ha] at this
          exact this
        refine ⟨m :: x :: l1', l2, ?_, ?_, ?_⟩
        · rw [show (m :: x :: l1') ++ minAcc m xs :: l2
              = m :: x :: (l1' ++ minAcc m xs :: l2) from rfl, ← hxs]
        · intro q hq
          rcases List.mem_cons.mp hq with rfl | hq1
          · exact hmlt
          · rcases List.mem_cons.mp hq1 with rfl | hq2
            · omega
            · exact hlt q (ha ▸ List.mem_cons_of_mem a hq2)
        · intro q hq
          rcases List.mem_cons.mp hq with rfl | hq1
          · exact hmle
          · rcases List.mem_cons.mp hq1 with rfl | hq2
            · omega
            · exact hle q (List.mem_cons_of_mem m hq2)

theorem maxByFirst_first_max (l : List ((String × String) × Nat)) (p)
    (hp : maxByFirst l = some p) :
    ∃ l1 l2, l = l1 ++ p :: l2 ∧ (∀ q ∈ l1, q.2 < p.2) ∧ ∀ q ∈ l, q.2 ≤ p.2 := by
  cases l with
  | nil => cases hp
  | cons x xs =>
    rw [maxByFirst, List.foldl_cons,
      show maxStep none x = some x from rfl, foldl_maxStep_some] at hp
    cases (Option.some.injEq _ _).mp hp
    exact maxAcc_first_max xs x

theorem minByFirst_first_min (l : List ((String × String) × Nat)) (p)
    (hp : minByFirst l = some p) :
    ∃ l1 l2, l = l1 ++ p :: l2 ∧ (∀ q ∈ l1, p.2 < q.2) ∧ ∀ q ∈ l, p.2 ≤ q.2 := by
  cases l with
  | nil => cases hp
  | cons x xs =>
    rw [minByFirst, List.foldl_cons,
      show minStep none x = some x from rfl, foldl_minStep_some] at hp
    cases (Option.some.injEq _ _).mp hp
    exact minAcc_first_min xs x

/-- Configuration with two hours, used to exhibit the extremal-slot
behaviour of the occupancy report. -/
def cfgC : Config := { cfgA with heures := ["8h", "9h"] }

/-- A schedule over `cfgC` occupying only the second hour. -/
def solC : Solution := [("G1", [⟨"Lundi", "9h", "Math", "P1", "R1"⟩])]

/-- C7 counterexample: the code's least-occupied slot is taken over only the
slots with at least one occupied room, in schedule first-encounter order —
not over the whole time-slot grid in day-then-hour order: on `solC` the code
reports ("Lundi","9h") with count 1 while grid-order selection yields
("Lundi","8h") with count 0. -/
theorem C7_counterexample :
    minByFirst (occupation_par_creneau solC) ≠ specLeastOccupiedSlot cfgC solC ∧
    minByFirst (occupation_par_creneau solC) = some (("Lundi", "9h"), 1) ∧
    specLeastOccupiedSlot cfgC solC = some (("Lundi", "8h"), 0) := by decide

/-- C7 amended: the most- and least-occupied slots are selected by
distinct-occupied-room count among the slots having at least one occupied
room, listed in first-encounter order over the schedule's entries, and ties
are broken by first encounter in that order: the reported slot is preceded
only by strictly worse slots and is extremal over the whole list. -/
theorem C7_extremal_slots_first_encounter (sol : Solution)
    (p q : (String × String) × Nat)
    (hmax : maxByFirst (occupation_par_creneau sol) = some p)
    (hmin : minByFirst (occupation_par_creneau sol) = some q) :
    (∃ l1 l2, occupation_par_creneau sol = l1 ++ p :: l2 ∧
      (∀ x ∈ l1, x.2 < p.2) ∧ ∀ x ∈ occupation_par_creneau sol, x.2 ≤ p.2) ∧
    (∃ l1 l2, occupation_par_creneau sol = l1 ++ q :: l2 ∧
      (∀ x ∈ l1, q.2 < x.2) ∧ ∀ x ∈ occupation_par_creneau sol, q.2 ≤ x.2) :=
  ⟨maxByFirst_first_max _ p hmax, minByFirst_first_min _ q hmin⟩

/-- Witness for the amended C7 on `solC`. -/
theorem C7_extremal_slots_witness :
    (maxByFirst (occupation_par_creneau solC) = some (("Lundi", "9h"), 1) ∧
     minByFirst (occupation_par_creneau solC) = some (("Lundi", "9h"), 1)) ∧
    (∃ l1 l2, occupation_par_creneau solC = l1 ++ (("Lundi", "9h"), 1) :: l2 ∧
      (∀ x ∈ l1, x.2 < 1) ∧ ∀ x ∈ occupation_par_creneau solC, x.2 ≤ 1) ∧
    (∃ l1 l2, occupation_par_creneau solC = l1 ++ (("Lundi", "9h"), 1) :: l2 ∧
      (∀ x ∈ l1, 1 < x.2) ∧ ∀ x ∈ occupation_par_creneau solC, 1 ≤ x.2) :=
  ⟨⟨by decide, by decide⟩,
    C7_extremal_slots_first_encounter solC (("Lundi", "9h"), 1)
      (("Lundi", "9h"), 1) (by decide) (by decide)⟩

/-!
## Counting lemmas for the validator (C3)
-/

theorem countEq_cons [DecidableEq α] (y : α) (l : List α) (x : α) :
    countEq (y :: l) x = (if y = x then 1 else 0) + countEq l x := by
  rw [countEq, countEq, List.filter_cons]
  by_cases h : y = x
  · rw [if_pos (by simp [h]), if_pos h, List.length_cons]
    omega
  · rw [if_neg (by simp [h]), if_neg h]
    omega

theorem countEq_append [DecidableEq α] (l1 l2 : List α) (x : α) :
    countEq (l1 ++ l2) x = countEq l1 x + countEq l2 x := by
  simp [countEq, List.filter_append]

theorem countEq_eq_zero_iff [DecidableEq α] {l : List α} {x : α} :
    countEq l x = 0 ↔ x ∉ l := by
  induction l with
  | nil => simp [countEq]
  | cons y ys ih =>
    rw [countEq_cons]
    by_cases h : y = x
    · subst h; simp
    · have hxy : ¬ x = y := fun hh => h hh.symm
      simp [h, hxy, ih]

theorem countEq_flatMap [DecidableEq β] (l : List α) (f : α → List β) (x : β) :
    countEq (l.flatMap f) x = (l.map (fun a => countEq (f a) x)).sum := by
  induction l with
  | nil => simp [countEq]
  | cons a as ih => simp [List.flatMap_cons, countEq_append, ih]

theorem countEq_filterMap [DecidableEq β] (l : List α) (f : α → Option β) (x : β) :
    countEq (l.filterMap f) x = (l.filter (fun a => f a = some x)).length := by
  induction l with
  | nil => simp [countEq]
  | cons a as ih =>
    rw [List.filterMap_cons]
    cases hfa : f a with
    | none =>
      rw [List.filter_cons]
      simp [hfa, ih]
    | some b =>
      rw [countEq_cons, List.filter_cons]
      by_cases hbx : b = x
      · rw [if_pos hbx, if_pos (by simp [hfa, hbx]), List.length_cons, ih]
        omega
      · have hne : ¬ (f a = some x) := by rw [hfa]; simp [hbx]
        rw [if_neg hbx, if_neg (by simp [hne]), ih]
        omega

theorem countEq_nodup [DecidableEq α] {l : List α} (h : l.Nodup) (x : α) :
    countEq l x = if x ∈ l then 1 else 0 := by
  induction l with
  | nil => simp [countEq]
  | cons y ys ih =>
    rw [countEq_cons, ih (List.nodup_cons.mp h).2]
    by_cases hyx : y = x
    · subst hyx
      have hy : y ∉ ys := (List.nodup_cons.mp h).1
      simp [hy]
    · have hxy : ¬ x = y := fun hh => hyx hh.symm
      simp [hyx, hxy, List.mem_cons]

theorem sum_map_single [DecidableEq α] {l : List α} (hnd : l.Nodup) (g : α → Nat)
    (r : α) (hz : ∀ a ∈ l, a ≠ r → g a = 0) :
    (l.map g).sum = if r ∈ l then g r else 0 := by
  induction l with
  | nil => simp
  | cons a as ih =>
    have hnd' := List.nodup_cons.mp hnd
    by_cases har : a = r
    · subst har
      have hzs : ∀ b ∈ as, g b = 0 := fun b hb =>
        hz b (List.mem_cons_of_mem a hb) (fun he => hnd'.1 (he ▸ hb))
      have hs : (as.map g).sum = 0 := List.sum_eq_zero (by
        intro x hx
        rcases List.mem_map.mp hx with ⟨b, hb, rfl⟩
        exact hzs b hb)
      simp [hs]
    · have hra : ¬ r = a := fun he => har he.symm
      rw [List.map_cons, List.sum_cons, hz a (List.mem_cons_self a as) har,
        ih hnd'.2 (fun b hb hbr => hz b (List.mem_cons_of_mem a hb) hbr)]
      simp [List.mem_cons, hra]

/-- Every violation emitted by `conflitsOf kind` is a `conflit` with that
resource kind. -/
theorem mem_conflitsOf_kind {kind : String} {occs : List (String × (String × String))}
    {v : Violation} (h : v ∈ conflitsOf kind occs) :
    ∃ a b c m, v = Violation.conflit kind a b c m := by
  rcases List.mem_flatMap.mp h with ⟨r', _, hv⟩
  rcases List.mem_filterMap.mp hv with ⟨s', _, hG⟩
  by_cases hc : 1 < countEq (resourceSlots occs r') s'
  · rw [if_pos hc] at hG
    exact ⟨r', s'.1, s'.2, _, ((Option.some.injEq _ _).mp hG).symm⟩
  · rw [if_neg hc] at hG; cases hG

/-- The number of times the room-conflict message for resource `r`, slot `s`
and count `n` appears in `conflitsOf kind occs`: exactly once when `n` is the
occurrence count of `(r, s)` and is at least 2, never otherwise. -/
theorem countEq_conflitsOf (kind : String) (occs : List (String × (String × String)))
    (r : String) (s : String × String) (n : Nat) :
    countEq (conflitsOf kind occs) (Violation.conflit kind r s.1 s.2 n) =
      if 2 ≤ n ∧ n = countEq (resourceSlots occs r) s then 1 else 0 := by
  have hz : ∀ a ∈ dedupAux [] (occs.map Prod.fst), a ≠ r →
      countEq ((dedupAux [] (resourceSlots occs a)).filterMap (fun s' =>
        if 1 < countEq (resourceSlots occs a) s' then
          some (Violation.conflit kind a s'.1 s'.2 (countEq (resourceSlots occs a) s'))
        else none)) (Violation.conflit kind r s.1 s.2 n) = 0 := by
    intro a _ hne
    rw [countEq_eq_zero_iff]
    intro hmem
    rcases List.mem_filterMap.mp hmem with ⟨s', _, hG⟩
    by_cases hc : 1 < countEq (resourceSlots occs a) s'
    · rw [if_pos hc] at hG
      have h1 := (Option.some.injEq _ _).mp hG
      simp only [Violation.conflit.injEq] at h1
      exact hne h1.2.1
    · rw [if_neg hc] at hG; cases hG
  rw [conflitsOf, countEq_flatMap, sum_map_single (nodup_dedupAux _ _) _ r hz]
  by_cases hr : r ∈ dedupAux [] (occs.map Prod.fst)
  · rw [if_pos hr, countEq_filterMap]
    by_cases hC : 2 ≤ n ∧ n = countEq (resourceSlots occs r) s
    · rw [if_pos hC]
      have hsm : s ∈ resourceSlots occs r := by
        by_contra hno
        have h0 : countEq (resourceSlots occs r) s = 0 := countEq_eq_zero_iff.mpr hno
        omega
      have hcongr : ∀ s' ∈ dedupAux [] (resourceSlots occs r),
          (decide ((if 1 < countEq (resourceSlots occs r) s' then
            some (Violation.conflit kind r s'.1 s'.2
              (countEq (resourceSlots occs r) s'))
          else none) = some (Violation.conflit kind r s.1 s.2 n)))
            = decide (s' = s) := by
        intro s' _
        by_cases hss : s' = s
        · subst hss
          rw [if_pos (by omega), ← hC.2]
          simp
        · have hrhs : decide (s' = s) = false := by simp [hss]
          rw [hrhs]
          by_cases hc1 : 1 < countEq (resourceSlots occs r) s'
          · rw [if_pos hc1, decide_eq_false_iff_not]
            intro hG
            have h1 := (Option.some.injEq _ _).mp hG
            simp only [Violation.conflit.injEq] at h1
            exact hss (Prod.ext h1.2.2.1 h1.2.2.2.1)
          · rw [if_neg hc1]
            simp
      rw [List.filter_congr hcongr]
      have := countEq_nodup (nodup_dedupAux [] (resourceSlots occs r)) s
      rw [countEq] at this
      rw [this, if_pos (mem_dedupAux.mpr ⟨hsm, List.not_mem_nil s⟩)]
    · rw [if_neg hC]
      have hfil : ((dedupAux [] (resourceSlots occs r)).filter (fun s' =>
          (if 1 < countEq (resourceSlots occs r) s' then
            some (Violation.conflit kind r s'.1 s'.2
              (countEq (resourceSlots occs r) s'))
          else none) = some (Violation.conflit kind r s.1 s.2 n))) = [] := by
        rw [List.filter_eq_nil_iff]
        intro s' _
        simp only [decide_eq_true_eq]
        intro hG
        by_cases hc1 : 1 < countEq (resourceSlots occs r) s'
        · rw [if_pos hc1] at hG
          have h1 := (Option.some.injEq _ _).mp hG
          simp only [Violation.conflit.injEq] at h1
          rcases h1 with ⟨_, _, hs1, hs2, hcn⟩
          have hss : s' = s := Prod.ext hs1 hs2
          subst hss
          exact hC ⟨by omega, hcn.symm⟩
        · rw [if_neg hc1] at hG; cases hG
      rw [hfil]
      rfl
  · rw [if_neg hr]
    have hrocc : r ∉ occs.map Prod.fst := fun hm =>
      hr (mem_dedupAux.mpr ⟨hm, List.not_mem_nil r⟩)
    have hslots : resourceSlots occs r = [] := by
      rw [resourceSlots, List.filter_eq_nil_iff.mpr, List.map_nil]
      intro o ho
      simp only [decide_eq_true_eq]
      intro he
      exact hrocc (List.mem_map.mpr ⟨o, ho, he⟩)
    rw [hslots]
    have h0 : countEq ([] : List (String × String)) s = 0 := rfl
    rw [if_neg]
    intro hC
    omega

/-- Every per-entry violation is a competency or room-type message. -/
theorem mem_perEntry_shape {sol : Solution}
    {professeurs : List (String × List String)} {salles : List (String × SalleInfo)}
    {infos_matieres : List (String × String)} {v : Violation}
    (h : v ∈ perEntryViolations sol professeurs salles infos_matieres) :
    (∃ a b, v = Violation.competence a b) ∨ ∃ a b c, v = Violation.salleType a b c := by
  rcases List.mem_flatMap.mp h with ⟨ge, _, hv⟩
  rcases List.mem_append.mp hv with h1 | h2
  · by_cases hc : profCompetent professeurs ge.2.prof ge.2.matiere
    · rw [if_pos hc] at h1; cases h1
    · rw [if_neg hc] at h1
      exact Or.inl ⟨_, _, List.mem_singleton.mp h1⟩
  · rcases hm : infos_matieres.lookup ge.2.matiere with _ | requise
    · simp only [entrySalleViolation, hm] at h2
      exact Or.inr ⟨_, _, _, List.mem_singleton.mp h2⟩
    · rcases hs : salles.lookup ge.2.salle with _ | sinfo
      · simp only [entrySalleViolation, hm, hs] at h2
        exact Or.inr ⟨_, _, _, List.mem_singleton.mp h2⟩
      · simp only [entrySalleViolation, hm, hs] at h2
        by_cases ht : sinfo.type == requise
        · rw [if_pos ht] at h2; cases h2
        · rw [if_neg ht] at h2
          exact Or.inr ⟨_, _, _, List.mem_singleton.mp h2⟩

theorem mem_nombre_shape {sol : Solution} {cours_planifies : List Cours}
    {v : Violation} (h : v ∈ nombreViolations sol cours_planifies) :
    ∃ a b, v = Violation.nombre a b := by
  rw [nombreViolations] at h
  by_cases hn : (allEntries sol).length = cours_planifies.length
  · rw [if_pos hn] at h; cases h
  · rw [if_neg hn] at h
    exact ⟨_, _, List.mem_singleton.mp h⟩

/-- Validator fixture: two teachers competent in their own subject. -/
def profsD : List (String × List String) := [("P1", ["M1"]), ("P2", ["M2"])]

/-- Validator fixture: a single standard room. -/
def sallesD : List (String × SalleInfo) := [("R1", ⟨"standard", 30, []⟩)]

/-- Validator fixture: both subjects need a standard room. -/
def infosD : List (String × String) := [("M1", "standard"), ("M2", "standard")]

/-- Validator fixture: the two courses supposed to be scheduled. -/
def coursD : List Cours := [⟨"G1", "M1", 0⟩, ⟨"G2", "M2", 1⟩]

/-- Validator fixture: two groups booked into the same room at the same
slot, everything else consistent. -/
def solD : Solution :=
  [("G1", [⟨"Lundi", "8h", "M1", "P1", "R1"⟩]),
   ("G2", [⟨"Lundi", "8h", "M2", "P2", "R1"⟩])]

/-- C3 counterexample: on a schedule whose only defect is two entries
sharing (room R1, slot Lundi 8h), the validator emits exactly one
room-conflict violation, but that violation names only the room, the slot
and the count — not the groups (G1, G2) or subjects (M1, M2) of the two
conflicting entries, contradicting the claim that each conflict violation
carries the conflicting entries. -/
theorem C3_counterexample :
    (verifier_solution solD coursD profsD sallesD infosD).2 =
      [Violation.conflit "salle" "R1" "Lundi" "8h" 2] ∧
    ((verifier_solution solD coursD profsD sallesD infosD).2.all
      (fun v => !(v.mentions "G1") && !(v.mentions "M1") &&
                !(v.mentions "G2") && !(v.mentions "M2"))) = true := by decide

/-- C3 amended: the validator returns its validity flag together with the
violation report, and the flag is true exactly when no violation was found
(it checks past the first violation); each room-conflict violation carries
the room, the slot and the count of simultaneous entries (but not their
identities), and appears exactly once per (room, slot) holding at least two
entries, with the count equal to the number of entries there. -/
theorem C3_validator_room_conflicts (sol : Solution) (cours_planifies : List Cours)
    (professeurs : List (String × List String))
    (salles : List (String × SalleInfo))
    (infos_matieres : List (String × String))
    (r : String) (s : String × String) (n : Nat) :
    countEq (verifier_solution sol cours_planifies professeurs salles infos_matieres).2
        (Violation.conflit "salle" r s.1 s.2 n) =
      (if 2 ≤ n ∧ n = countEq (resourceSlots (salleOccs sol) r) s then 1 else 0) ∧
    ((verifier_solution sol cours_planifies professeurs salles infos_matieres).1 = true ↔
      (verifier_solution sol cours_planifies professeurs salles infos_matieres).2 = []) := by
  constructor
  · show countEq (perEntryViolations sol professeurs salles infos_matieres ++
      nombreViolations sol cours_planifies ++ conflitViolations sol) _ = _
    rw [countEq_append, countEq_append, conflitViolations, countEq_append,
      countEq_append]
    have h1 : countEq (perEntryViolations sol professeurs salles infos_matieres)
        (Violation.conflit "salle" r s.1 s.2 n) = 0 := by
      rw [countEq_eq_zero_iff]
      intro hmem
      rcases mem_perEntry_shape hmem with ⟨a, b, he⟩ | ⟨a, b, c, he⟩ <;> cases he
    have h2 : countEq (nombreViolations sol cours_planifies)
        (Violation.conflit "salle" r s.1 s.2 n) = 0 := by
      rw [countEq_eq_zero_iff]
      intro hmem
      rcases mem_nombre_shape hmem with ⟨a, b, he⟩
      cases he
    have h3 : countEq (conflitsOf "professeur" (profOccs sol))
        (Violation.conflit "salle" r s.1 s.2 n) = 0 := by
      rw [countEq_eq_zero_iff]
      intro hmem
      rcases mem_conflitsOf_kind hmem with ⟨a, b, c, m, he⟩
      simp only [Violation.conflit.injEq] at he
      exact absurd he.1 (by decide)
    have h4 : countEq (conflitsOf "groupe" (groupeOccs sol))
        (Violation.conflit "salle" r s.1 s.2 n) = 0 := by
      rw [countEq_eq_zero_iff]
      intro hmem
      rcases mem_conflitsOf_kind hmem with ⟨a, b, c, m, he⟩
      simp only [Violation.conflit.injEq] at he
      exact absurd he.1 (by decide)
    rw [h1, h2, h3, h4, countEq_conflitsOf "salle" (salleOccs sol) r s n]
    omega
  · show ((perEntryViolations sol professeurs salles infos_matieres ++
      nombreViolations sol cours_planifies ++ conflitViolations sol).isEmpty = true ↔ _)
    exact List.isEmpty_iff

end JCM
